import Mathlib

/-!
Shallow embedding of `src/Library.py` (a toy library of books).

The Python code keeps a `Library` holding a list `library_books` of mutable
`LibraryBook` objects together with a dict `index` mapping a `BookKey`
(title, author) to the *same* `LibraryBook` objects.  We model this aliasing
by storing the records in a list and letting the index map keys to positions
into that list; mutation through the index becomes a functional update of
the list at the looked-up position.

Python integers are unbounded, so counts are `Int`.  A Python function that
can raise (`return_book`, via a dict `KeyError`) returns an `Option` here,
`none` standing for the raised exception (the library state is unchanged
when the exception is raised, since the lookup happens before the mutation).
-/

/-- `class Book`: title, author, genere, n_pages.  `Book.__eq__` compares all
four attributes, which is exactly structural equality. -/
structure Book where
  title : String
  author : String
  genere : String
  n_pages : Int
deriving DecidableEq, Repr

/-- `class BookKey`: identifies a book by the pair (title, author) only. -/
structure BookKey where
  key : String × String
deriving DecidableEq, Repr

/-- `BookKey(title, author)`. -/
def BookKey.mk2 (title author : String) : BookKey := ⟨(title, author)⟩

/-- `BookKey.from_book`: the factory classmethod building a key from a book. -/
def BookKey.from_book (book : Book) : BookKey := ⟨(book.title, book.author)⟩

/-- `class LibraryBook`: a book together with the owned quantity `qty` and the
currently available quantity `available_qty`. -/
structure LibraryBook where
  book : Book
  qty : Int
  available_qty : Int
deriving DecidableEq, Repr

/-- `LibraryBook.inc`: `self.available_qty += 1; self.qty += 1`. -/
def LibraryBook.inc (lb : LibraryBook) : LibraryBook :=
  { lb with available_qty := lb.available_qty + 1, qty := lb.qty + 1 }

/-- The `Library` state: the ordered list `library_books` and the dict
`index`, modelled as an association list from keys to positions in
`library_books` (the dict stores references to the very objects held by the
list; a position is our name for such a reference). -/
structure Library where
  library_books : List LibraryBook
  index : List (BookKey × Nat)
deriving DecidableEq, Repr

/-- `Library.__init__`: empty list, empty dict. -/
def Library.init : Library := ⟨[], []⟩

/-- Dict lookup (`index.get(key)` / `key in index`): first entry whose key
equals the given key, if any. -/
def lookupIdx : List (BookKey × Nat) → BookKey → Option Nat
  | [], _ => none
  | (k, i) :: rest, key => if k = key then some i else lookupIdx rest key

/-- `Library.add_book(book)`: if the key is already in the index, call
`inc()` on the referenced `LibraryBook`; otherwise append a fresh
`LibraryBook(book, 1, 1)` to the list and register it in the index. -/
def Library.add_book (lib : Library) (book : Book) : Library :=
  let book_key := BookKey.from_book book
  match lookupIdx lib.index book_key with
  | some i =>
    match lib.library_books.get? i with
    | some lb => { lib with library_books := lib.library_books.set i lb.inc }
    | none => lib
  | none =>
    let lb : LibraryBook := ⟨book, 1, 1⟩
    { library_books := lib.library_books ++ [lb],
      index := lib.index ++ [(book_key, lib.library_books.length)] }

/-- `Library.get_book(title, author)`: `self.index.get(BookKey(title, author))`. -/
def Library.get_book (lib : Library) (title author : String) : Option LibraryBook :=
  match lookupIdx lib.index (BookKey.mk2 title author) with
  | none => none
  | some i => lib.library_books.get? i

/-- `Library.checkout(title, author)`: returns the checked-out `Book` (or
`none`) together with the library state after the call. -/
def Library.checkout (lib : Library) (title author : String) :
    Option Book × Library :=
  match lookupIdx lib.index (BookKey.mk2 title author) with
  | none => (none, lib)
  | some i =>
    match lib.library_books.get? i with
    | none => (none, lib)
    | some lb =>
      if lb.available_qty = 0 then (none, lib)
      else
        (some lb.book,
          { lib with
              library_books :=
                lib.library_books.set i
                  { lb with available_qty := lb.available_qty - 1 } })

/-- `Library.return_book(book)`:
`self.index[BookKey(book.title, book.author)].available_qty += 1`.
A missing key raises `KeyError` before any mutation; `none` models the
raised exception. -/
def Library.return_book (lib : Library) (book : Book) : Option Library :=
  match lookupIdx lib.index (BookKey.from_book book) with
  | none => none
  | some i =>
    match lib.library_books.get? i with
    | none => none
    | some lb =>
      some { lib with
               library_books :=
                 lib.library_books.set i
                   { lb with available_qty := lb.available_qty + 1 } }

/-!
## The iterator `LibraryBookIter`

Its mutable state is the not-yet-visited suffix of `library_books`
(the `book_iter`) together with `current_book` and `qty_counter`; before the
first `__next__` call `current_book` is `None` (the initial `qty_counter`
value is overwritten before it is ever read, so it is not part of the model).
-/

/-- State of a `LibraryBookIter`: the remaining suffix of the list and, once
the first element has been fetched, the pair (current_book, qty_counter). -/
structure LibraryBookIterState where
  rest : List LibraryBook
  current : Option (LibraryBook × Int)
deriving DecidableEq, Repr

/-- `LibraryBookIter.__init__`: `book_iter` starts at the full list,
`current_book = None`. -/
def LibraryBookIter.init (lib : Library) : LibraryBookIterState :=
  ⟨lib.library_books, none⟩

/-- The `next(book_iter)` / `while available_qty == 0` skip loop of
`__next__`: fetch the next book, skipping those with `available_qty == 0`.
`none` models the `StopIteration` escaping from `next`. -/
def nextAvail : List LibraryBook → Option (LibraryBook × List LibraryBook)
  | [] => none
  | lb :: rest => if lb.available_qty = 0 then nextAvail rest else some (lb, rest)

/-- `LibraryBookIter.__next__`: produces the next value and the successor
state, or `none` for `StopIteration`. -/
def iterNext : LibraryBookIterState → Option (LibraryBook × LibraryBookIterState)
  | ⟨rest, none⟩ =>
    match rest with
    | [] => none
    | lb :: rs =>
      if lb.available_qty > 0 then some (lb, ⟨rs, some (lb, 1)⟩)
      else
        match nextAvail rs with
        | none => none
        | some (lb2, rs2) => some (lb2, ⟨rs2, some (lb2, 1)⟩)
  | ⟨rest, some (lb, k)⟩ =>
    if lb.available_qty > k then some (lb, ⟨rest, some (lb, k + 1)⟩)
    else
      match nextAvail rest with
      | none => none
      | some (lb2, rs2) => some (lb2, ⟨rs2, some (lb2, 1)⟩)

/-- Drive the iterator for at most `fuel` steps, collecting the produced
values (`list(lib)` in Python, once `fuel` is at least the number of values
plus one). -/
def runIter (fuel : Nat) (s : LibraryBookIterState) : List LibraryBook :=
  match fuel with
  | 0 => []
  | fuel + 1 =>
    match iterNext s with
    | none => []
    | some (lb, s2) => lb :: runIter fuel s2

/-- An upper bound on the number of `__next__` calls the iterator can answer
from a list: each record can be emitted at most `available_qty.toNat` times
and be skipped once. -/
def iterBound (l : List LibraryBook) : Nat :=
  (l.map (fun lb => lb.available_qty.toNat + 1)).sum + 1

/-- `list(lib)`: the full sequence of values produced by iterating the
library once. -/
def libraryEnum (lib : Library) : List LibraryBook :=
  runIter (iterBound lib.library_books) (LibraryBookIter.init lib)

/-- Specification-side description of enumeration: each record of the list,
in order, repeated `available_qty` times (so zero-availability records
vanish). -/
def availFlatten : List LibraryBook → List LibraryBook
  | [] => []
  | lb :: rest => List.replicate lb.available_qty.toNat lb ++ availFlatten rest

/-!
## Operations and reachable states
-/

/-- A client operation on the library. -/
inductive Op where
  | add (book : Book)
  | co (title author : String)
  | ret (book : Book)
deriving DecidableEq, Repr

/-- The state after performing one operation.  A `return_book` whose key is
untracked raises `KeyError`; the mutation never happens, so the state is
unchanged. -/
def applyOp (lib : Library) : Op → Library
  | .add b => lib.add_book b
  | .co t a => (lib.checkout t a).2
  | .ret b => (lib.return_book b).getD lib

/-- The state reached from a fresh library by a sequence of operations. -/
def runOps (ops : List Op) : Library := ops.foldl applyOp Library.init

/-- The identities of the records, in sequence order. -/
def booksKeys (l : List LibraryBook) : List BookKey :=
  l.map (fun lb => BookKey.from_book lb.book)

/-- The index the real execution maintains for a record list: each record's
key mapped to its position, starting at position `n`. -/
def mkIndexFrom (n : Nat) : List LibraryBook → List (BookKey × Nat)
  | [] => []
  | lb :: rest => (BookKey.from_book lb.book, n) :: mkIndexFrom (n + 1) rest

/-- Structural invariant tying the dict to the list: the index is exactly the
position map of the record list, and no two records share an identity. -/
def indexInv (lib : Library) : Prop :=
  lib.index = mkIndexFrom 0 lib.library_books ∧ (booksKeys lib.library_books).Nodup

/-- Counts are non-negative (the part of the quantity invariant that all
three operations do preserve). -/
def nonnegInv (lib : Library) : Prop :=
  ∀ lb ∈ lib.library_books, 0 ≤ lb.qty ∧ 0 ≤ lb.available_qty

/-- The full quantity invariant claimed by the specification. -/
def qtyInv (lib : Library) : Prop :=
  ∀ lb ∈ lib.library_books, 0 ≤ lb.available_qty ∧ lb.available_qty ≤ lb.qty

/-!
## Auxiliary quantities for the iterator proof
-/

/-- Fuel cost of a record list: each record can be emitted `available_qty`
times and skipped over once. -/
def availSum (l : List LibraryBook) : Nat :=
  (l.map (fun lb => lb.available_qty.toNat + 1)).sum

/-- Fuel cost of an iterator state: the cost of the unvisited suffix plus
the remaining emissions of the current record plus one final call. -/
def stMeasure : LibraryBookIterState → Nat
  | ⟨rest, none⟩ => availSum rest + 1
  | ⟨rest, some (lb, k)⟩ => availSum rest + (lb.available_qty - k).toNat + 1

/-- What an iterator state still owes: the remaining emissions of the
current record followed by the expansion of the unvisited suffix. -/
def specOf : LibraryBookIterState → List LibraryBook
  | ⟨rest, none⟩ => availFlatten rest
  | ⟨rest, some (lb, k)⟩ =>
    List.replicate (lb.available_qty - k).toNat lb ++ availFlatten rest

/-- Whether an operation is a `return_book`. -/
def Op.isRet : Op → Bool
  | .ret _ => true
  | _ => false

/-- Sample books mirroring the repository's own test data. -/
def bookA : Book := ⟨"LOTR", "Tolkien", "Fantasy", 1000⟩

def bookB : Book := ⟨"Lord of Light", "Roger Zelazny", "Fantasy", 400⟩

def bookC : Book := ⟨"Sherlock", "Conan-Doyle", "Crime", 200⟩

def bookD : Book := ⟨"Olilver Twist", "Dickens", "Fiction", 800⟩

/-- `bookA` with a different genere and page count: same identity. -/
def bookA2 : Book := ⟨"LOTR", "Tolkien", "Epic", 1200⟩

/-!
## Helper lemmas: the iterator
-/

lemma replicate_toNat_pos {a : Int} (h : 0 < a) (x : LibraryBook) :
    List.replicate a.toNat x = x :: List.replicate (a - 1).toNat x := by
  have hn : a.toNat = (a - 1).toNat + 1 := by omega
  rw [hn, List.replicate_succ]

lemma nextAvail_none {rest : List LibraryBook} (h : nextAvail rest = none) :
    availFlatten rest = [] := by
  induction rest with
  | nil => rfl
  | cons lb rs ih =>
    unfold nextAvail at h
    by_cases hz : lb.available_qty = 0
    · simp only [hz, if_pos rfl] at h
      simp [availFlatten, hz, ih h]
    · simp [if_neg hz] at h

lemma nextAvail_some {rest rs2 : List LibraryBook} {lb2 : LibraryBook}
    (h : nextAvail rest = some (lb2, rs2)) :
    lb2.available_qty ≠ 0 ∧
      availFlatten rest = List.replicate lb2.available_qty.toNat lb2 ++ availFlatten rs2 ∧
      (∀ x ∈ rs2, x ∈ rest) ∧ lb2 ∈ rest ∧
      availSum rs2 + lb2.available_qty.toNat + 1 ≤ availSum rest := by
  induction rest with
  | nil => simp [nextAvail] at h
  | cons lb rs ih =>
    unfold nextAvail at h
    by_cases hz : lb.available_qty = 0
    · simp only [hz, if_pos rfl] at h
      obtain ⟨hne, hfl, hsub, hmem, hms⟩ := ih h
      refine ⟨hne, ?_, ?_, ?_, ?_⟩
      · simp [availFlatten, hz, hfl]
      · intro x hx
        exact List.mem_cons_of_mem _ (hsub x hx)
      · exact List.mem_cons_of_mem _ hmem
      · simp only [availSum, List.map_cons, List.sum_cons] at hms ⊢
        omega
    · rw [if_neg hz] at h
      injection h with h
      injection h with h1 h2
      subst h1; subst h2
      refine ⟨hz, rfl, ?_, List.mem_cons_self _ _, ?_⟩
      · intro x hx
        exact List.mem_cons_of_mem _ hx
      · simp only [availSum, List.map_cons, List.sum_cons]
        omega

lemma stMeasure_pos (s : LibraryBookIterState) : 1 ≤ stMeasure s := by
  obtain ⟨rest, cur⟩ := s
  match cur with
  | none => simp [stMeasure]
  | some (lb, k) => simp [stMeasure]

lemma runIter_spec (fuel : Nat) :
    ∀ s : LibraryBookIterState, (∀ lb ∈ s.rest, 0 ≤ lb.available_qty) →
      stMeasure s ≤ fuel → runIter fuel s = specOf s := by
  induction fuel with
  | zero =>
    intro s _ hm
    have := stMeasure_pos s
    omega
  | succ fuel ih =>
    intro s hnn hm
    obtain ⟨rest, cur⟩ := s
    match cur with
    | none =>
      match rest with
      | [] =>
        simp [runIter, iterNext, specOf, availFlatten]
      | lb :: rs =>
        have hnn' : ∀ x ∈ rs, 0 ≤ x.available_qty := by
          intro x hx
          exact hnn x (List.mem_cons_of_mem _ hx)
        by_cases hpos : lb.available_qty > 0
        · have hstep : iterNext ⟨lb :: rs, none⟩ = some (lb, ⟨rs, some (lb, 1)⟩) := by
            simp [iterNext, hpos]
          have hm' : stMeasure ⟨rs, some (lb, 1)⟩ ≤ fuel := by
            simp only [stMeasure, availSum, List.map_cons, List.sum_cons] at hm ⊢
            omega
          have hrec := ih ⟨rs, some (lb, 1)⟩ hnn' hm'
          simp only [runIter, hstep, hrec, specOf, availFlatten]
          rw [replicate_toNat_pos hpos]
          simp
        · have hz : lb.available_qty = 0 := by
            have := hnn lb (List.mem_cons_self _ _)
            omega
          cases hna : nextAvail rs with
          | none =>
            have hstep : iterNext ⟨lb :: rs, none⟩ = none := by
              simp [iterNext, hpos, hna]
            simp only [runIter, hstep, specOf, availFlatten, hz]
            simp [nextAvail_none hna]
          | some p =>
            obtain ⟨lb2, rs2⟩ := p
            obtain ⟨hne2, hfl2, hsub2, hmem2, hms2⟩ := nextAvail_some hna
            have hpos2 : 0 < lb2.available_qty := by
              have := hnn' lb2 hmem2
              omega
            have hstep : iterNext ⟨lb :: rs, none⟩ = some (lb2, ⟨rs2, some (lb2, 1)⟩) := by
              simp [iterNext, hpos, hna]
            have hnn2 : ∀ x ∈ rs2, 0 ≤ x.available_qty := by
              intro x hx
              exact hnn' x (hsub2 x hx)
            have hm' : stMeasure ⟨rs2, some (lb2, 1)⟩ ≤ fuel := by
              simp only [stMeasure, availSum, List.map_cons, List.sum_cons] at hm ⊢
              simp only [availSum] at hms2
              omega
            have hrec := ih ⟨rs2, some (lb2, 1)⟩ hnn2 hm'
            simp only [runIter, hstep, hrec, specOf, availFlatten, hz, hfl2]
            rw [replicate_toNat_pos hpos2]
            simp
    | some (lb, k) =>
      by_cases hpos : lb.available_qty > k
      · have hstep : iterNext ⟨rest, some (lb, k)⟩ = some (lb, ⟨rest, some (lb, k + 1)⟩) := by
          simp [iterNext, hpos]
        have hm' : stMeasure ⟨rest, some (lb, k + 1)⟩ ≤ fuel := by
          simp only [stMeasure] at hm ⊢
          omega
        have hrec := ih ⟨rest, some (lb, k + 1)⟩ hnn hm'
        simp only [runIter, hstep, hrec, specOf]
        have : (lb.available_qty - k).toNat = ((lb.available_qty - (k + 1)).toNat) + 1 := by
          omega
        rw [this, List.replicate_succ]
        simp
      · have hdone : (lb.available_qty - k).toNat = 0 := by omega
        cases hna : nextAvail rest with
        | none =>
          have hstep : iterNext ⟨rest, some (lb, k)⟩ = none := by
            simp [iterNext, hpos, hna]
          simp only [runIter, hstep, specOf, hdone]
          simp [nextAvail_none hna]
        | some p =>
          obtain ⟨lb2, rs2⟩ := p
          obtain ⟨hne2, hfl2, hsub2, hmem2, hms2⟩ := nextAvail_some hna
          have hpos2 : 0 < lb2.available_qty := by
            have := hnn lb2 hmem2
            omega
          have hstep : iterNext ⟨rest, some (lb, k)⟩ = some (lb2, ⟨rs2, some (lb2, 1)⟩) := by
            simp [iterNext, hpos, hna]
          have hnn2 : ∀ x ∈ rs2, 0 ≤ x.available_qty := by
            intro x hx
            exact hnn x (hsub2 x hx)
          have hm' : stMeasure ⟨rs2, some (lb2, 1)⟩ ≤ fuel := by
            simp only [stMeasure, availSum] at hm ⊢
            simp only [availSum] at hms2
            omega
          have hrec := ih ⟨rs2, some (lb2, 1)⟩ hnn2 hm'
          simp only [runIter, hstep, hrec, specOf, hdone, hfl2]
          rw [replicate_toNat_pos hpos2]
          simp

/-!
## Helper lemmas: the index and the record list
-/

lemma mkIndexFrom_append (l : List LibraryBook) (x : LibraryBook) :
    ∀ n, mkIndexFrom n (l ++ [x]) =
      mkIndexFrom n l ++ [(BookKey.from_book x.book, n + l.length)] := by
  induction l with
  | nil => intro n; simp [mkIndexFrom]
  | cons lb ls ih =>
    intro n
    have harith : n + 1 + ls.length = n + (ls.length + 1) := by omega
    calc mkIndexFrom n ((lb :: ls) ++ [x])
        = (BookKey.from_book lb.book, n) :: mkIndexFrom (n + 1) (ls ++ [x]) := rfl
      _ = (BookKey.from_book lb.book, n) ::
            (mkIndexFrom (n + 1) ls ++
              [(BookKey.from_book x.book, n + 1 + ls.length)]) := by rw [ih (n + 1)]
      _ = (BookKey.from_book lb.book, n) ::
            (mkIndexFrom (n + 1) ls ++
              [(BookKey.from_book x.book, n + (ls.length + 1))]) := by rw [harith]
      _ = mkIndexFrom n (lb :: ls) ++
            [(BookKey.from_book x.book, n + (lb :: ls).length)] := rfl

lemma booksKeys_set (l : List LibraryBook) :
    ∀ i lb lb2, l.get? i = some lb →
      BookKey.from_book lb2.book = BookKey.from_book lb.book →
      booksKeys (l.set i lb2) = booksKeys l := by
  induction l with
  | nil => intro i lb lb2 h _; simp at h
  | cons hd tl ih =>
    intro i lb lb2 h hk
    match i with
    | 0 =>
      simp only [List.get?] at h
      injection h with h
      subst h
      simp [booksKeys, List.set, hk]
    | i + 1 =>
      simp only [List.get?] at h
      have := ih i lb lb2 h hk
      simp only [booksKeys, List.set, List.map_cons] at this ⊢
      rw [this]

lemma mkIndexFrom_set (l : List LibraryBook) :
    ∀ n i lb lb2, l.get? i = some lb →
      BookKey.from_book lb2.book = BookKey.from_book lb.book →
      mkIndexFrom n (l.set i lb2) = mkIndexFrom n l := by
  induction l with
  | nil => intro n i lb lb2 h _; simp at h
  | cons hd tl ih =>
    intro n i lb lb2 h hk
    match i with
    | 0 =>
      simp only [List.get?] at h
      injection h with h
      subst h
      simp [mkIndexFrom, List.set, hk]
    | i + 1 =>
      simp only [List.get?] at h
      simp only [List.set, mkIndexFrom]
      rw [ih (n + 1) i lb lb2 h hk]

lemma lookupIdx_mkIndexFrom_none (l : List LibraryBook) (k : BookKey) :
    ∀ n, lookupIdx (mkIndexFrom n l) k = none ↔
      ∀ lb ∈ l, BookKey.from_book lb.book ≠ k := by
  induction l with
  | nil => intro n; simp [mkIndexFrom, lookupIdx]
  | cons hd tl ih =>
    intro n
    simp only [mkIndexFrom, lookupIdx]
    by_cases hk : BookKey.from_book hd.book = k
    · simp [hk]
    · simp only [if_neg hk, ih (n + 1)]
      constructor
      · intro h lb hlb
        rcases List.mem_cons.1 hlb with h0 | h0
        · subst h0; exact hk
        · exact h lb h0
      · intro h lb hlb
        exact h lb (List.mem_cons_of_mem _ hlb)

lemma lookupIdx_mkIndexFrom_found (l : List LibraryBook) (k : BookKey) :
    ∀ n i lb, (booksKeys l).Nodup → l.get? i = some lb →
      BookKey.from_book lb.book = k →
      lookupIdx (mkIndexFrom n l) k = some (n + i) := by
  induction l with
  | nil => intro n i lb _ h _; simp at h
  | cons hd tl ih =>
    intro n i lb hnd h hk
    simp only [booksKeys, List.map_cons, List.nodup_cons] at hnd
    match i with
    | 0 =>
      simp only [List.get?] at h
      injection h with h
      subst h
      simp [mkIndexFrom, lookupIdx, hk]
    | i + 1 =>
      simp only [List.get?] at h
      have hmem : lb ∈ tl := List.get?_mem h
      have hne : BookKey.from_book hd.book ≠ k := by
        intro he
        apply hnd.1
        have hin : BookKey.from_book lb.book ∈
            List.map (fun lb => BookKey.from_book lb.book) tl :=
          List.mem_map_of_mem _ hmem
        rw [hk, ← he] at hin
        exact hin
      simp only [mkIndexFrom, lookupIdx, if_neg hne]
      rw [ih (n + 1) i lb hnd.2 h hk]
      congr 1
      omega

lemma lookupIdx_mkIndexFrom_some (l : List LibraryBook) (k : BookKey) :
    ∀ n j, lookupIdx (mkIndexFrom n l) k = some j →
      n ≤ j ∧ ∃ lb, l.get? (j - n) = some lb ∧ BookKey.from_book lb.book = k := by
  induction l with
  | nil => intro n j h; simp [mkIndexFrom, lookupIdx] at h
  | cons hd tl ih =>
    intro n j h
    simp only [mkIndexFrom, lookupIdx] at h
    by_cases hk : BookKey.from_book hd.book = k
    · rw [if_pos hk] at h
      injection h with h
      subst h
      refine ⟨le_refl _, hd, ?_, hk⟩
      simp
    · rw [if_neg hk] at h
      obtain ⟨hle, lb, hget, hlbk⟩ := ih (n + 1) j h
      refine ⟨by omega, lb, ?_, hlbk⟩
      have : j - n = (j - (n + 1)) + 1 := by omega
      rw [this]
      simpa using hget

/-!
## Helper lemmas: shapes of the three operations
-/

lemma get?_set_same {l : List LibraryBook} {i : Nat} {lb v : LibraryBook}
    (h : l.get? i = some lb) : (l.set i v).get? i = some v := by
  have hi : i < l.length := by
    by_contra hc
    push_neg at hc
    rw [List.get?_eq_none.2 hc] at h
    exact Option.noConfusion h
  rw [List.get?_eq_getElem?, List.getElem?_set]
  simp [hi]

lemma get?_set_other {l : List LibraryBook} {i j : Nat} {v : LibraryBook}
    (h : i ≠ j) : (l.set i v).get? j = l.get? j := by
  rw [List.get?_eq_getElem?, List.get?_eq_getElem?, List.getElem?_set_ne h]

lemma forall_mem_set {P : LibraryBook → Prop} {l : List LibraryBook} {i : Nat}
    {v : LibraryBook} (hl : ∀ x ∈ l, P x) (hv : P v) : ∀ x ∈ l.set i v, P x := by
  intro x hx
  rcases List.mem_or_eq_of_mem_set hx with h | h
  · exact hl x h
  · subst h; exact hv

lemma add_book_cases (lib : Library) (b : Book) :
    (lookupIdx lib.index (BookKey.from_book b) = none ∧
      lib.add_book b =
        { library_books := lib.library_books ++ [⟨b, 1, 1⟩],
          index := lib.index ++ [(BookKey.from_book b, lib.library_books.length)] }) ∨
    (∃ i lb, lookupIdx lib.index (BookKey.from_book b) = some i ∧
      lib.library_books.get? i = some lb ∧
      lib.add_book b = { lib with library_books := lib.library_books.set i lb.inc }) ∨
    lib.add_book b = lib := by
  cases hl : lookupIdx lib.index (BookKey.from_book b) with
  | none =>
    left
    exact ⟨rfl, by simp only [Library.add_book, hl]⟩
  | some i =>
    cases hg : lib.library_books.get? i with
    | none =>
      right; right
      simp only [Library.add_book, hl, hg]
    | some lb =>
      right; left
      exact ⟨i, lb, rfl, hg, by simp only [Library.add_book, hl, hg]⟩

lemma checkout_cases (lib : Library) (t a : String) :
    lib.checkout t a = (none, lib) ∨
    (∃ i lb, lookupIdx lib.index (BookKey.mk2 t a) = some i ∧
      lib.library_books.get? i = some lb ∧ lb.available_qty ≠ 0 ∧
      lib.checkout t a = (some lb.book,
        { lib with library_books := lib.library_books.set i
                     { lb with available_qty := lb.available_qty - 1 } })) := by
  cases hl : lookupIdx lib.index (BookKey.mk2 t a) with
  | none =>
    left
    simp only [Library.checkout, hl]
  | some i =>
    cases hg : lib.library_books.get? i with
    | none =>
      left
      simp only [Library.checkout, hl, hg]
    | some lb =>
      by_cases hz : lb.available_qty = 0
      · left
        simp only [Library.checkout, hl, hg, if_pos hz]
      · right
        exact ⟨i, lb, rfl, hg, hz, by simp only [Library.checkout, hl, hg, if_neg hz]⟩

lemma return_book_cases (lib : Library) (b : Book) :
    lib.return_book b = none ∨
    (∃ i lb, lookupIdx lib.index (BookKey.from_book b) = some i ∧
      lib.library_books.get? i = some lb ∧
      lib.return_book b =
        some { lib with library_books :=
                 lib.library_books.set i ⟨lb.book, lb.qty, lb.available_qty + 1⟩ }) := by
  cases hl : lookupIdx lib.index (BookKey.from_book b) with
  | none =>
    left
    simp only [Library.return_book, hl]
  | some i =>
    cases hg : lib.library_books.get? i with
    | none =>
      left
      simp only [Library.return_book, hl, hg]
    | some lb =>
      right
      exact ⟨i, lb, rfl, hg, by simp only [Library.return_book, hl, hg]⟩

/-!
## Helper lemmas: invariant preservation
-/

lemma nonnegInv_add (lib : Library) (b : Book) (h : nonnegInv lib) :
    nonnegInv (lib.add_book b) := by
  rcases add_book_cases lib b with ⟨_, he⟩ | ⟨i, lb, _, hg, he⟩ | he
  · rw [he]
    intro x hx
    rcases List.mem_append.1 hx with hx | hx
    · exact h x hx
    · simp only [List.mem_singleton] at hx
      subst hx
      exact ⟨by norm_num, by norm_num⟩
  · rw [he]
    have hlb := h lb (List.get?_mem hg)
    refine forall_mem_set h ⟨?_, ?_⟩
    · show 0 ≤ lb.qty + 1
      omega
    · show 0 ≤ lb.available_qty + 1
      omega
  · rw [he]; exact h

lemma nonnegInv_checkout (lib : Library) (t a : String) (h : nonnegInv lib) :
    nonnegInv (lib.checkout t a).2 := by
  rcases checkout_cases lib t a with he | ⟨i, lb, _, hg, hz, he⟩
  · rw [he]; exact h
  · rw [he]
    have hlb := h lb (List.get?_mem hg)
    refine forall_mem_set h ⟨?_, ?_⟩
    · show 0 ≤ lb.qty
      omega
    · show 0 ≤ lb.available_qty - 1
      omega

lemma nonnegInv_return (lib : Library) (b : Book) (h : nonnegInv lib) :
    nonnegInv ((lib.return_book b).getD lib) := by
  rcases return_book_cases lib b with he | ⟨i, lb, _, hg, he⟩
  · rw [he]; exact h
  · rw [he]
    have hlb := h lb (List.get?_mem hg)
    refine forall_mem_set h ⟨?_, ?_⟩
    · show 0 ≤ lb.qty
      omega
    · show 0 ≤ lb.available_qty + 1
      omega

lemma nonnegInv_applyOp (lib : Library) (op : Op) (h : nonnegInv lib) :
    nonnegInv (applyOp lib op) := by
  cases op with
  | add b => exact nonnegInv_add lib b h
  | co t a => exact nonnegInv_checkout lib t a h
  | ret b => exact nonnegInv_return lib b h

lemma qtyInv_add (lib : Library) (b : Book) (h : qtyInv lib) :
    qtyInv (lib.add_book b) := by
  rcases add_book_cases lib b with ⟨_, he⟩ | ⟨i, lb, _, hg, he⟩ | he
  · rw [he]
    intro x hx
    rcases List.mem_append.1 hx with hx | hx
    · exact h x hx
    · simp only [List.mem_singleton] at hx
      subst hx
      exact ⟨by norm_num, by norm_num⟩
  · rw [he]
    have hlb := h lb (List.get?_mem hg)
    refine forall_mem_set h ⟨?_, ?_⟩
    · show 0 ≤ lb.available_qty + 1
      omega
    · show lb.available_qty + 1 ≤ lb.qty + 1
      omega
  · rw [he]; exact h

lemma qtyInv_checkout (lib : Library) (t a : String) (h : qtyInv lib) :
    qtyInv (lib.checkout t a).2 := by
  rcases checkout_cases lib t a with he | ⟨i, lb, _, hg, hz, he⟩
  · rw [he]; exact h
  · rw [he]
    have hlb := h lb (List.get?_mem hg)
    refine forall_mem_set h ⟨?_, ?_⟩
    · show 0 ≤ lb.available_qty - 1
      omega
    · show lb.available_qty - 1 ≤ lb.qty
      omega

lemma indexInv_intro (lib : Library)
    (h1 : lib.index = mkIndexFrom 0 lib.library_books)
    (h2 : (booksKeys lib.library_books).Nodup) : indexInv lib :=
  ⟨h1, h2⟩

lemma lookupIdx_of_record (lib : Library) (h : indexInv lib) {i : Nat}
    {lb : LibraryBook} (hg : lib.library_books.get? i = some lb) :
    lookupIdx lib.index (BookKey.from_book lb.book) = some i := by
  rw [h.1]
  have := lookupIdx_mkIndexFrom_found lib.library_books
    (BookKey.from_book lb.book) 0 i lb h.2 hg rfl
  simpa using this

lemma record_of_lookupIdx (lib : Library) (h : indexInv lib) {k : BookKey} {i : Nat}
    (hl : lookupIdx lib.index k = some i) :
    ∃ lb, lib.library_books.get? i = some lb ∧ BookKey.from_book lb.book = k := by
  rw [h.1] at hl
  obtain ⟨-, lb, hg, hk⟩ := lookupIdx_mkIndexFrom_some lib.library_books k 0 i hl
  rw [Nat.sub_zero] at hg
  exact ⟨lb, hg, hk⟩

lemma lookupIdx_eq_none_iff (lib : Library) (h : indexInv lib) (k : BookKey) :
    lookupIdx lib.index k = none ↔
      ∀ lb ∈ lib.library_books, BookKey.from_book lb.book ≠ k := by
  rw [h.1]
  exact lookupIdx_mkIndexFrom_none lib.library_books k 0

lemma indexInv_add (lib : Library) (b : Book) (h : indexInv lib) :
    indexInv (lib.add_book b) := by
  obtain ⟨hidx, hnd⟩ := h
  rcases add_book_cases lib b with ⟨hl, he⟩ | ⟨i, lb, hl, hg, he⟩ | he
  · rw [he]
    have hnotin : ∀ lb ∈ lib.library_books,
        BookKey.from_book lb.book ≠ BookKey.from_book b := by
      rw [hidx] at hl
      exact (lookupIdx_mkIndexFrom_none _ _ 0).1 hl
    constructor
    · show lib.index ++ [(BookKey.from_book b, lib.library_books.length)] =
        mkIndexFrom 0 (lib.library_books ++ [⟨b, 1, 1⟩])
      rw [mkIndexFrom_append, hidx]
      simp [BookKey.from_book]
    · show (booksKeys (lib.library_books ++ [⟨b, 1, 1⟩])).Nodup
      simp only [booksKeys, List.map_append, List.map_cons, List.map_nil]
      rw [List.nodup_append]
      refine ⟨hnd, List.nodup_singleton _, ?_⟩
      intro k hk1 hk2
      simp only [List.mem_singleton] at hk2
      obtain ⟨lb, hlb, hkeq⟩ := List.mem_map.1 hk1
      subst hk2
      exact hnotin lb hlb hkeq
  · rw [he]
    have hinc : BookKey.from_book lb.inc.book = BookKey.from_book lb.book := rfl
    constructor
    · show lib.index = mkIndexFrom 0 (lib.library_books.set i lb.inc)
      rw [mkIndexFrom_set lib.library_books 0 i lb lb.inc hg hinc, hidx]
    · show (booksKeys (lib.library_books.set i lb.inc)).Nodup
      rw [booksKeys_set lib.library_books i lb lb.inc hg hinc]
      exact hnd
  · rw [he]; exact ⟨hidx, hnd⟩

lemma indexInv_checkout (lib : Library) (t a : String) (h : indexInv lib) :
    indexInv (lib.checkout t a).2 := by
  obtain ⟨hidx, hnd⟩ := h
  rcases checkout_cases lib t a with he | ⟨i, lb, hl, hg, hz, he⟩
  · rw [he]; exact ⟨hidx, hnd⟩
  · rw [he]
    constructor
    · show lib.index = mkIndexFrom 0
        (lib.library_books.set i { lb with available_qty := lb.available_qty - 1 })
      rw [mkIndexFrom_set lib.library_books 0 i lb
        ⟨lb.book, lb.qty, lb.available_qty - 1⟩ hg rfl, hidx]
    · show (booksKeys (lib.library_books.set i
        { lb with available_qty := lb.available_qty - 1 })).Nodup
      rw [booksKeys_set lib.library_books i lb
        ⟨lb.book, lb.qty, lb.available_qty - 1⟩ hg rfl]
      exact hnd

lemma indexInv_return (lib : Library) (b : Book) (h : indexInv lib) :
    indexInv ((lib.return_book b).getD lib) := by
  obtain ⟨hidx, hnd⟩ := h
  rcases return_book_cases lib b with he | ⟨i, lb, hl, hg, he⟩
  · rw [he]; exact ⟨hidx, hnd⟩
  · rw [he]
    constructor
    · show lib.index = mkIndexFrom 0
        (lib.library_books.set i ⟨lb.book, lb.qty, lb.available_qty + 1⟩)
      rw [mkIndexFrom_set lib.library_books 0 i lb
        ⟨lb.book, lb.qty, lb.available_qty + 1⟩ hg rfl, hidx]
    · show (booksKeys (lib.library_books.set i
        ⟨lb.book, lb.qty, lb.available_qty + 1⟩)).Nodup
      rw [booksKeys_set lib.library_books i lb
        ⟨lb.book, lb.qty, lb.available_qty + 1⟩ hg rfl]
      exact hnd

lemma indexInv_applyOp (lib : Library) (op : Op) (h : indexInv lib) :
    indexInv (applyOp lib op) := by
  cases op with
  | add b => exact indexInv_add lib b h
  | co t a => exact indexInv_checkout lib t a h
  | ret b => exact indexInv_return lib b h

lemma foldl_applyOp_preserve {P : Library → Prop}
    (hstep : ∀ lib op, P lib → P (applyOp lib op)) :
    ∀ (ops : List Op) (lib : Library), P lib → P (ops.foldl applyOp lib) := by
  intro ops
  induction ops with
  | nil => intro lib h; exact h
  | cons op rest ih =>
    intro lib h
    exact ih _ (hstep _ _ h)

lemma indexInv_init : indexInv Library.init := by
  constructor
  · rfl
  · show (booksKeys []).Nodup
    simp [booksKeys]

lemma indexInv_runOps (ops : List Op) : indexInv (runOps ops) :=
  foldl_applyOp_preserve indexInv_applyOp ops Library.init indexInv_init

lemma nonnegInv_runOps (ops : List Op) : nonnegInv (runOps ops) :=
  foldl_applyOp_preserve nonnegInv_applyOp ops Library.init (by
    intro lb hlb
    simp [Library.init] at hlb)

lemma qtyInv_foldl_noRet :
    ∀ (ops : List Op) (lib : Library), qtyInv lib →
      (∀ op ∈ ops, op.isRet = false) → qtyInv (ops.foldl applyOp lib) := by
  intro ops
  induction ops with
  | nil => intro lib h _; exact h
  | cons op rest ih =>
    intro lib h hnr
    apply ih
    · cases op with
      | add b => exact qtyInv_add lib b h
      | co t a => exact qtyInv_checkout lib t a h
      | ret b =>
        have := hnr (Op.ret b) (List.mem_cons_self _ _)
        simp [Op.isRet] at this
    · intro op hop
      exact hnr op (List.mem_cons_of_mem _ hop)

lemma qtyInv_runOps_noRet (ops : List Op) (h : ∀ op ∈ ops, op.isRet = false) :
    qtyInv (runOps ops) :=
  qtyInv_foldl_noRet ops Library.init (by
    intro lb hlb
    simp [Library.init] at hlb) h

/-!
## Helper lemmas: lengths and sums
-/

lemma availFlatten_length : ∀ l : List LibraryBook,
    (availFlatten l).length = (l.map (fun lb => lb.available_qty.toNat)).sum := by
  intro l
  induction l with
  | nil => rfl
  | cons lb rest ih =>
    simp [availFlatten, ih]

lemma availIntSum (l : List LibraryBook)
    (h : ∀ lb ∈ l, 0 ≤ lb.available_qty) :
    0 ≤ (l.map (fun lb => lb.available_qty)).sum ∧
      (((l.map (fun lb => lb.available_qty.toNat)).sum : Nat) : Int) =
        (l.map (fun lb => lb.available_qty)).sum := by
  induction l with
  | nil => simp
  | cons lb rest ih =>
    have hhd := h lb (List.mem_cons_self _ _)
    have htl := ih (fun x hx => h x (List.mem_cons_of_mem _ hx))
    simp only [List.map_cons, List.sum_cons]
    omega

lemma mkIndexFrom_length : ∀ (l : List LibraryBook) (n : Nat),
    (mkIndexFrom n l).length = l.length := by
  intro l
  induction l with
  | nil => intro n; rfl
  | cons lb rest ih =>
    intro n
    simp [mkIndexFrom, ih (n + 1)]

lemma mem_mkIndexFrom : ∀ (l : List LibraryBook) (n : Nat) (k : BookKey) (j : Nat),
    (k, j) ∈ mkIndexFrom n l →
      n ≤ j ∧ ∃ lb, l.get? (j - n) = some lb ∧ BookKey.from_book lb.book = k := by
  intro l
  induction l with
  | nil => intro n k j h; simp [mkIndexFrom] at h
  | cons lb rest ih =>
    intro n k j h
    simp only [mkIndexFrom, List.mem_cons] at h
    rcases h with h | h
    · injection h with h1 h2
      subst h2
      refine ⟨le_refl _, lb, ?_, h1.symm⟩
      simp
    · obtain ⟨hle, lb2, hg, hk⟩ := ih (n + 1) k j h
      refine ⟨by omega, lb2, ?_, hk⟩
      have : j - n = (j - (n + 1)) + 1 := by omega
      rw [this]
      simpa using hg

/-!
## Enumeration: main characterisation
-/

lemma libraryEnum_eq (lib : Library)
    (hnn : ∀ lb ∈ lib.library_books, 0 ≤ lb.available_qty) :
    ∀ fuel, iterBound lib.library_books ≤ fuel →
      runIter fuel (LibraryBookIter.init lib) = availFlatten lib.library_books := by
  intro fuel hf
  have hms : stMeasure ⟨lib.library_books, none⟩ ≤ fuel := by
    simp only [stMeasure]
    simp only [iterBound, availSum] at hf ⊢
    omega
  have hrun := runIter_spec fuel ⟨lib.library_books, none⟩ hnn hms
  simpa [LibraryBookIter.init, specOf] using hrun

/-!
## The claims
-/

/-- C1: iterating a `Library` (with the non-negative counts every reachable
state has) produces exactly the expansion of `library_books` in first-add
order: each record repeated `available_qty` times consecutively, records
with `available_qty = 0` skipped entirely — also in first or only position —
and nothing else; moreover any fuel of at least `iterBound` produces this
same finite sequence. -/
theorem C1_enumeration_expands_counts (lib : Library)
    (hnn : ∀ lb ∈ lib.library_books, 0 ≤ lb.available_qty) :
    libraryEnum lib = availFlatten lib.library_books ∧
    ∀ fuel, iterBound lib.library_books ≤ fuel →
      runIter fuel (LibraryBookIter.init lib) = availFlatten lib.library_books :=
  ⟨libraryEnum_eq lib hnn _ (le_refl _), libraryEnum_eq lib hnn⟩

/-- Witness for C1: a concrete two-book inventory. -/
theorem C1_enumeration_expands_counts_witness :
    (∀ lb ∈ (runOps [Op.add bookA, Op.add bookB]).library_books,
      0 ≤ lb.available_qty) ∧
    libraryEnum (runOps [Op.add bookA, Op.add bookB]) =
      availFlatten (runOps [Op.add bookA, Op.add bookB]).library_books :=
  ⟨by decide, (C1_enumeration_expands_counts _ (by decide)).1⟩

/-- C2 (amended): in every state reachable by add/checkout/return both
counts are non-negative, and on every state reachable without any
`return_book` operation `available_qty ≤ qty` also holds.  The original
blanket invariant `available ≤ total` is refuted by `C2_counterexample`:
`return_book` increments `available_qty` without capping it at `qty`. -/
theorem C2_counts_invariant (ops : List Op) :
    (∀ lb ∈ (runOps ops).library_books, 0 ≤ lb.qty ∧ 0 ≤ lb.available_qty) ∧
    ((∀ op ∈ ops, op.isRet = false) →
      ∀ lb ∈ (runOps ops).library_books,
        0 ≤ lb.available_qty ∧ lb.available_qty ≤ lb.qty) :=
  ⟨nonnegInv_runOps ops, fun h => qtyInv_runOps_noRet ops h⟩

/-- C2 counterexample: after `add bookA; return_book bookA` — a sequence of
the three permitted operations — the single record has `available_qty = 2`
but `qty = 1`, so `available_count ≤ total_count` fails on a reachable
state. -/
theorem C2_counterexample :
    ∃ lb ∈ (runOps [Op.add bookA, Op.ret bookA]).library_books,
      ¬ lb.available_qty ≤ lb.qty := by decide

/-- Witness for C2: a return-free sequence on which the full invariant is
obtained from the theorem. -/
theorem C2_counts_invariant_witness :
    (∀ op ∈ [Op.add bookA, Op.co "LOTR" "Tolkien"], op.isRet = false) ∧
    ∀ lb ∈ (runOps [Op.add bookA, Op.co "LOTR" "Tolkien"]).library_books,
      0 ≤ lb.available_qty ∧ lb.available_qty ≤ lb.qty :=
  ⟨by decide, (C2_counts_invariant _).2 (by decide)⟩

/-- C6: for a fixed inventory, iteration always terminates — every fuel of
at least `iterBound` yields the same full output — and the number of values
produced equals the sum of `available_qty` over all records at
iterator-creation time. -/
theorem C6_enumeration_terminates_and_counts (lib : Library)
    (hnn : ∀ lb ∈ lib.library_books, 0 ≤ lb.available_qty) :
    (∀ fuel, iterBound lib.library_books ≤ fuel →
      runIter fuel (LibraryBookIter.init lib) = libraryEnum lib) ∧
    ((libraryEnum lib).length : Int) =
      (lib.library_books.map (fun lb => lb.available_qty)).sum := by
  constructor
  · intro fuel hf
    rw [libraryEnum_eq lib hnn fuel hf]
    exact (libraryEnum_eq lib hnn _ (le_refl _)).symm
  · have h1 : libraryEnum lib = availFlatten lib.library_books :=
      libraryEnum_eq lib hnn _ (le_refl _)
    rw [h1, availFlatten_length]
    exact (availIntSum lib.library_books hnn).2

/-- Witness for C6: four single-copy books, one checked out, enumerate to
three values. -/
theorem C6_enumeration_terminates_and_counts_witness :
    (∀ lb ∈ (runOps [Op.add bookA, Op.add bookB, Op.add bookC, Op.add bookD,
        Op.co "LOTR" "Tolkien"]).library_books, 0 ≤ lb.available_qty) ∧
    ((libraryEnum (runOps [Op.add bookA, Op.add bookB, Op.add bookC, Op.add bookD,
        Op.co "LOTR" "Tolkien"])).length : Int) =
      ((runOps [Op.add bookA, Op.add bookB, Op.add bookC, Op.add bookD,
        Op.co "LOTR" "Tolkien"]).library_books.map
          (fun lb => lb.available_qty)).sum :=
  ⟨by decide, (C6_enumeration_terminates_and_counts _ (by decide)).2⟩

/-!
## Helper lemmas: pointwise operation equations
-/

lemma checkout_eq_of_absent (lib : Library) (t a : String)
    (hl : lookupIdx lib.index (BookKey.mk2 t a) = none) :
    lib.checkout t a = (none, lib) := by
  simp only [Library.checkout, hl]

lemma checkout_eq_of_exhausted (lib : Library) (t a : String) (i : Nat)
    (lb : LibraryBook) (hl : lookupIdx lib.index (BookKey.mk2 t a) = some i)
    (hg : lib.library_books.get? i = some lb) (hz : lb.available_qty = 0) :
    lib.checkout t a = (none, lib) := by
  simp only [Library.checkout, hl, hg, if_pos hz]

lemma checkout_eq_of_found (lib : Library) (t a : String) (i : Nat)
    (lb : LibraryBook) (hl : lookupIdx lib.index (BookKey.mk2 t a) = some i)
    (hg : lib.library_books.get? i = some lb) (hz : lb.available_qty ≠ 0) :
    lib.checkout t a = (some lb.book,
      { lib with library_books :=
          lib.library_books.set i ⟨lb.book, lb.qty, lb.available_qty - 1⟩ }) := by
  simp only [Library.checkout, hl, hg, if_neg hz]

lemma return_book_eq_of_found (lib : Library) (b : Book) (i : Nat)
    (lb : LibraryBook) (hl : lookupIdx lib.index (BookKey.from_book b) = some i)
    (hg : lib.library_books.get? i = some lb) :
    lib.return_book b =
      some { lib with library_books :=
               lib.library_books.set i ⟨lb.book, lb.qty, lb.available_qty + 1⟩ } := by
  simp only [Library.return_book, hl, hg]

/-- C3: `checkout` returns "not available" and leaves the state unchanged
when the identity is absent or its record is exhausted; otherwise it returns
the record's stored `Book` and decrements that record's `available_qty` by
exactly one; availability never becomes negative. -/
theorem C3_checkout_behavior (lib : Library) (t a : String)
    (hinv : indexInv lib) (hnn : ∀ lb ∈ lib.library_books, 0 ≤ lb.available_qty) :
    ((∀ lb ∈ lib.library_books, BookKey.from_book lb.book ≠ BookKey.mk2 t a) →
      lib.checkout t a = (none, lib)) ∧
    (∀ i lb, lib.library_books.get? i = some lb →
      BookKey.from_book lb.book = BookKey.mk2 t a →
      (lb.available_qty = 0 → lib.checkout t a = (none, lib)) ∧
      (lb.available_qty ≠ 0 →
        lib.checkout t a = (some lb.book,
          { lib with library_books :=
              lib.library_books.set i ⟨lb.book, lb.qty, lb.available_qty - 1⟩ }))) ∧
    (∀ lb ∈ (lib.checkout t a).2.library_books, 0 ≤ lb.available_qty) := by
  refine ⟨?_, ?_, ?_⟩
  · intro habs
    exact checkout_eq_of_absent lib t a ((lookupIdx_eq_none_iff lib hinv _).2 habs)
  · intro i lb hg hk
    have hl : lookupIdx lib.index (BookKey.mk2 t a) = some i := by
      have := lookupIdx_of_record lib hinv hg
      rwa [hk] at this
    exact ⟨fun hz => checkout_eq_of_exhausted lib t a i lb hl hg hz,
      fun hz => checkout_eq_of_found lib t a i lb hl hg hz⟩
  · rcases checkout_cases lib t a with he | ⟨i, lb, hl, hg, hz, he⟩
    · rw [he]; exact hnn
    · rw [he]
      refine forall_mem_set hnn ?_
      show 0 ≤ lb.available_qty - 1
      have := hnn lb (List.get?_mem hg)
      omega

/-- Witness for C3: a concrete single-copy inventory. -/
theorem C3_checkout_behavior_witness :
    (indexInv (runOps [Op.add bookA]) ∧
      ∀ lb ∈ (runOps [Op.add bookA]).library_books, 0 ≤ lb.available_qty) ∧
    ∀ lb ∈ ((runOps [Op.add bookA]).checkout "LOTR" "Tolkien").2.library_books,
      0 ≤ lb.available_qty :=
  ⟨⟨indexInv_intro _ (by decide) (by decide), by decide⟩,
    (C3_checkout_behavior _ "LOTR" "Tolkien"
      (indexInv_intro _ (by decide) (by decide)) (by decide)).2.2⟩

/-- C4: `add_book` always succeeds: a fresh identity appends a record with
`qty = available_qty = 1` and registers it in the index; an existing
identity (matched on title/author only) gets both counters incremented on
its existing record; adding the same title/author twice from an empty
library yields one record with both counters equal to 2, whatever the
second book's genere and page count. -/
theorem C4_add_always_succeeds (lib : Library) (b : Book) (hinv : indexInv lib) :
    ((∀ lb ∈ lib.library_books, BookKey.from_book lb.book ≠ BookKey.from_book b) →
      lib.add_book b =
        { library_books := lib.library_books ++ [⟨b, 1, 1⟩],
          index := lib.index ++ [(BookKey.from_book b, lib.library_books.length)] }) ∧
    (∀ i lb, lib.library_books.get? i = some lb →
      BookKey.from_book lb.book = BookKey.from_book b →
      lib.add_book b =
        { lib with library_books :=
            lib.library_books.set i ⟨lb.book, lb.qty + 1, lb.available_qty + 1⟩ }) ∧
    (∀ b2 : Book, BookKey.from_book b2 = BookKey.from_book b →
      (Library.init.add_book b).add_book b2 =
        { library_books := [⟨b, 2, 2⟩], index := [(BookKey.from_book b, 0)] }) := by
  refine ⟨?_, ?_, ?_⟩
  · intro habs
    have hl := (lookupIdx_eq_none_iff lib hinv _).2 habs
    simp only [Library.add_book, hl]
  · intro i lb hg hk
    have hl : lookupIdx lib.index (BookKey.from_book b) = some i := by
      have := lookupIdx_of_record lib hinv hg
      rwa [hk] at this
    simp only [Library.add_book, hl, hg, LibraryBook.inc]
  · intro b2 hkb
    have h1 : Library.init.add_book b =
        { library_books := [⟨b, 1, 1⟩], index := [(BookKey.from_book b, 0)] } := rfl
    rw [h1]
    have hl : lookupIdx [(BookKey.from_book b, 0)] (BookKey.from_book b2) = some 0 := by
      rw [hkb]
      simp [lookupIdx]
    have hg : ([⟨b, 1, 1⟩] : List LibraryBook).get? 0 = some ⟨b, 1, 1⟩ := rfl
    simp only [Library.add_book, hl, hg, LibraryBook.inc, List.set]
    norm_num

/-- Witness for C4: adding `bookA` twice, the second time with a different
genere and page count. -/
theorem C4_add_always_succeeds_witness :
    (indexInv Library.init ∧ BookKey.from_book bookA2 = BookKey.from_book bookA) ∧
    (Library.init.add_book bookA).add_book bookA2 =
      { library_books := [⟨bookA, 2, 2⟩], index := [(BookKey.from_book bookA, 0)] } :=
  ⟨⟨indexInv_intro _ (by decide) (by decide), by decide⟩,
    (C4_add_always_succeeds Library.init bookA
      (indexInv_intro _ (by decide) (by decide))).2.2 bookA2 (by decide)⟩

/-- C5: `return_book` on a never-added identity raises (`KeyError`, modelled
as `none`) instead of silently succeeding, and the library state is
unchanged — in particular no phantom record appears; on a tracked identity
it increments that record's `available_qty` by exactly one. -/
theorem C5_return_requires_tracked (lib : Library) (b : Book) (hinv : indexInv lib) :
    ((∀ lb ∈ lib.library_books, BookKey.from_book lb.book ≠ BookKey.from_book b) →
      lib.return_book b = none ∧ applyOp lib (Op.ret b) = lib) ∧
    (∀ i lb, lib.library_books.get? i = some lb →
      BookKey.from_book lb.book = BookKey.from_book b →
      lib.return_book b =
        some { lib with library_books :=
                 lib.library_books.set i ⟨lb.book, lb.qty, lb.available_qty + 1⟩ }) := by
  constructor
  · intro habs
    have hl := (lookupIdx_eq_none_iff lib hinv _).2 habs
    have hn : lib.return_book b = none := by
      simp only [Library.return_book, hl]
    exact ⟨hn, by simp [applyOp, hn]⟩
  · intro i lb hg hk
    have hl : lookupIdx lib.index (BookKey.from_book b) = some i := by
      have := lookupIdx_of_record lib hinv hg
      rwa [hk] at this
    exact return_book_eq_of_found lib b i lb hl hg

/-- Witness for C5: returning a never-added book raises; the state stays
untouched. -/
theorem C5_return_requires_tracked_witness :
    (indexInv (runOps [Op.add bookA]) ∧
      ∀ lb ∈ (runOps [Op.add bookA]).library_books,
        BookKey.from_book lb.book ≠ BookKey.from_book bookC) ∧
    (runOps [Op.add bookA]).return_book bookC = none ∧
    applyOp (runOps [Op.add bookA]) (Op.ret bookC) = runOps [Op.add bookA] :=
  ⟨⟨indexInv_intro _ (by decide) (by decide), by decide⟩,
    (C5_return_requires_tracked _ bookC
      (indexInv_intro _ (by decide) (by decide))).1 (by decide)⟩

/-- C9: `get_book` builds the (title, author) key, looks it up in the index,
and returns the matching record when present and `none` when absent; it is a
pure query (its type has no state component, mirroring that the source
method performs no mutation). -/
theorem C9_get_book_behavior (lib : Library) (t a : String) (hinv : indexInv lib) :
    ((∀ lb ∈ lib.library_books, BookKey.from_book lb.book ≠ BookKey.mk2 t a) →
      lib.get_book t a = none) ∧
    (∀ i lb, lib.library_books.get? i = some lb →
      BookKey.from_book lb.book = BookKey.mk2 t a →
      lib.get_book t a = some lb) := by
  constructor
  · intro habs
    have hl := (lookupIdx_eq_none_iff lib hinv _).2 habs
    simp only [Library.get_book, hl]
  · intro i lb hg hk
    have hl : lookupIdx lib.index (BookKey.mk2 t a) = some i := by
      have := lookupIdx_of_record lib hinv hg
      rwa [hk] at this
    simp only [Library.get_book, hl, hg]

/-- Witness for C9: lookup of a never-added identity returns `none`. -/
theorem C9_get_book_behavior_witness :
    (indexInv (runOps [Op.add bookA]) ∧
      ∀ lb ∈ (runOps [Op.add bookA]).library_books,
        BookKey.from_book lb.book ≠ BookKey.mk2 "Sherlock" "Conan-Doyle") ∧
    (runOps [Op.add bookA]).get_book "Sherlock" "Conan-Doyle" = none :=
  ⟨⟨indexInv_intro _ (by decide) (by decide), by decide⟩,
    (C9_get_book_behavior _ "Sherlock" "Conan-Doyle"
      (indexInv_intro _ (by decide) (by decide))).1 (by decide)⟩

/-- C10: a successful `checkout` or `return_book` changes only the
`available_qty` of the affected record (by −1 resp. +1): its `book` and
`qty` are untouched, all other positions of the sequence are untouched, the
sequence keeps its length, and the index is untouched. -/
theorem C10_mutation_frame (lib : Library) (t a : String) (b : Book) :
    (∀ bk lib2, lib.checkout t a = (some bk, lib2) →
      lib2.index = lib.index ∧
      lib2.library_books.length = lib.library_books.length ∧
      ∃ i lb, lib.library_books.get? i = some lb ∧ bk = lb.book ∧
        lib2.library_books.get? i = some ⟨lb.book, lb.qty, lb.available_qty - 1⟩ ∧
        ∀ j, j ≠ i → lib2.library_books.get? j = lib.library_books.get? j) ∧
    (∀ lib2, lib.return_book b = some lib2 →
      lib2.index = lib.index ∧
      lib2.library_books.length = lib.library_books.length ∧
      ∃ i lb, lib.library_books.get? i = some lb ∧
        lib2.library_books.get? i = some ⟨lb.book, lb.qty, lb.available_qty + 1⟩ ∧
        ∀ j, j ≠ i → lib2.library_books.get? j = lib.library_books.get? j) := by
  constructor
  · intro bk lib2 he
    rcases checkout_cases lib t a with he2 | ⟨i, lb, hl, hg, hz, he2⟩
    · rw [he2] at he
      exact absurd (congrArg Prod.fst he) (by simp)
    · rw [he2] at he
      injection he with he1 hes
      injection he1 with he1
      subst he1
      subst hes
      refine ⟨rfl, by simp [List.length_set], i, lb, hg, rfl, ?_, ?_⟩
      · exact get?_set_same hg
      · intro j hj
        exact get?_set_other (Ne.symm hj)
  · intro lib2 he
    rcases return_book_cases lib b with he2 | ⟨i, lb, hl, hg, he2⟩
    · rw [he2] at he
      exact Option.noConfusion he
    · rw [he2] at he
      injection he with he
      subst he
      refine ⟨rfl, by simp [List.length_set], i, lb, hg, ?_, ?_⟩
      · exact get?_set_same hg
      · intro j hj
        exact get?_set_other (Ne.symm hj)

/-- Witness for C10: a concrete successful checkout leaves the index
untouched. -/
theorem C10_mutation_frame_witness :
    (runOps [Op.add bookA]).checkout "LOTR" "Tolkien" =
      (some bookA, ((runOps [Op.add bookA]).checkout "LOTR" "Tolkien").2) ∧
    ((runOps [Op.add bookA]).checkout "LOTR" "Tolkien").2.index =
      (runOps [Op.add bookA]).index := by
  have he : (runOps [Op.add bookA]).checkout "LOTR" "Tolkien" =
      (some bookA, ((runOps [Op.add bookA]).checkout "LOTR" "Tolkien").2) := by
    decide
  exact ⟨he, ((C10_mutation_frame (runOps [Op.add bookA]) "LOTR" "Tolkien"
    bookA).1 bookA _ he).1⟩

/-- C7: for a single-copy identity (one `add_book` into a fresh library) the
first checkout succeeds returning the book, an immediately following second
checkout returns `none`; and in checkout – return – checkout all three
operations succeed, the final checkout succeeding because the return
restored availability. -/
theorem C7_single_copy_scenarios (b : Book) :
    (((Library.init.add_book b).checkout b.title b.author).1 = some b ∧
      ((((Library.init.add_book b).checkout b.title b.author).2).checkout
          b.title b.author).1 = none) ∧
    (∃ lib3,
      (((Library.init.add_book b).checkout b.title b.author).2).return_book b =
        some lib3 ∧
      (lib3.checkout b.title b.author).1 = some b) := by
  have h1 : Library.init.add_book b =
      { library_books := [⟨b, 1, 1⟩], index := [(BookKey.from_book b, 0)] } := rfl
  have hl : lookupIdx [(BookKey.from_book b, 0)] (BookKey.mk2 b.title b.author)
      = some 0 := by
    simp [lookupIdx, BookKey.from_book, BookKey.mk2]
  have hlf : lookupIdx [(BookKey.from_book b, 0)] (BookKey.from_book b)
      = some 0 := by
    simp [lookupIdx]
  have e1 : (Library.init.add_book b).checkout b.title b.author =
      (some b, { library_books := [⟨b, 1, 0⟩],
                 index := [(BookKey.from_book b, 0)] }) := by
    rw [h1]
    have hstep := checkout_eq_of_found
      { library_books := [⟨b, 1, 1⟩], index := [(BookKey.from_book b, 0)] }
      b.title b.author 0 ⟨b, 1, 1⟩ hl rfl (by show (1 : Int) ≠ 0; decide)
    rw [hstep]
    rfl
  have e2 : ({ library_books := [⟨b, 1, 0⟩],
               index := [(BookKey.from_book b, 0)] } : Library).checkout
        b.title b.author =
      (none, { library_books := [⟨b, 1, 0⟩],
               index := [(BookKey.from_book b, 0)] }) :=
    checkout_eq_of_exhausted
      { library_books := [⟨b, 1, 0⟩], index := [(BookKey.from_book b, 0)] }
      b.title b.author 0 ⟨b, 1, 0⟩ hl rfl (by show (0 : Int) = 0; rfl)
  have e3 : ({ library_books := [⟨b, 1, 0⟩],
               index := [(BookKey.from_book b, 0)] } : Library).return_book b =
      some { library_books := [⟨b, 1, 1⟩],
             index := [(BookKey.from_book b, 0)] } := by
    have hstep := return_book_eq_of_found
      { library_books := [⟨b, 1, 0⟩], index := [(BookKey.from_book b, 0)] }
      b 0 ⟨b, 1, 0⟩ hlf rfl
    rw [hstep]
    rfl
  have e4 : ({ library_books := [⟨b, 1, 1⟩],
               index := [(BookKey.from_book b, 0)] } : Library).checkout
        b.title b.author =
      (some b, { library_books := [⟨b, 1, 0⟩],
                 index := [(BookKey.from_book b, 0)] }) := by
    have hstep := checkout_eq_of_found
      { library_books := [⟨b, 1, 1⟩], index := [(BookKey.from_book b, 0)] }
      b.title b.author 0 ⟨b, 1, 1⟩ hl rfl (by show (1 : Int) ≠ 0; decide)
    rw [hstep]
    rfl
  refine ⟨⟨?_, ?_⟩, ?_⟩
  · rw [e1]
  · rw [e1]
    show (({ library_books := [⟨b, 1, 0⟩],
             index := [(BookKey.from_book b, 0)] } : Library).checkout
        b.title b.author).1 = none
    rw [e2]
  · refine ⟨{ library_books := [⟨b, 1, 1⟩],
              index := [(BookKey.from_book b, 0)] }, ?_, ?_⟩
    · rw [e1]
      show ({ library_books := [⟨b, 1, 0⟩],
              index := [(BookKey.from_book b, 0)] } : Library).return_book b = _
      exact e3
    · rw [e4]

/-- C8: in every reachable state the ordered record list and the index are
in bijection by identity: the record at each position has its identity
mapped to exactly that position, every index entry points back to a record
carrying that identity, record identities are pairwise distinct, and the
two containers have equal size. -/
theorem C8_sequence_index_bijection (ops : List Op) :
    (∀ i, i < (runOps ops).library_books.length →
      ∃ lb, (runOps ops).library_books.get? i = some lb ∧
        lookupIdx (runOps ops).index (BookKey.from_book lb.book) = some i) ∧
    (∀ k j, (k, j) ∈ (runOps ops).index →
      ∃ lb, (runOps ops).library_books.get? j = some lb ∧
        BookKey.from_book lb.book = k) ∧
    (booksKeys (runOps ops).library_books).Nodup ∧
    (runOps ops).index.length = (runOps ops).library_books.length := by
  have hinv := indexInv_runOps ops
  refine ⟨?_, ?_, hinv.2, ?_⟩
  · intro i hi
    have hg : (runOps ops).library_books.get? i =
        some ((runOps ops).library_books.get ⟨i, hi⟩) := List.get?_eq_get hi
    exact ⟨_, hg, lookupIdx_of_record _ hinv hg⟩
  · intro k j hmem
    rw [hinv.1] at hmem
    obtain ⟨-, lb, hg, hk⟩ := mem_mkIndexFrom _ 0 k j hmem
    rw [Nat.sub_zero] at hg
    exact ⟨lb, hg, hk⟩
  · rw [hinv.1, mkIndexFrom_length]

/-- Witness for C8: in a one-record inventory the record at position 0 is
indexed at position 0. -/
theorem C8_sequence_index_bijection_witness :
    0 < (runOps [Op.add bookA]).library_books.length ∧
    ∃ lb, (runOps [Op.add bookA]).library_books.get? 0 = some lb ∧
      lookupIdx (runOps [Op.add bookA]).index (BookKey.from_book lb.book) = some 0 :=
  ⟨by decide, (C8_sequence_index_bijection [Op.add bookA]).1 0 (by decide)⟩
